import Mathlib

/-!
Verification model of the `signal-backup-decode` repository.

Bytes are modelled as natural numbers (`u8` values are `< 256`), byte
buffers as `List Nat`.  Cryptographic primitives that live in external
crates (SHA-512, HMAC-SHA256, the AES-256 block function) are abstract
function parameters; everything the repository itself computes is
translated directly from the Rust source.
-/

/-- Byte buffers: each element models one `u8`. -/
abbrev Bytes := List Nat

/-- All entries of a buffer are valid `u8` values. -/
def bytesBounded (bs : Bytes) : Prop := ∀ b ∈ bs, b < 256

instance (bs : Bytes) : Decidable (bytesBounded bs) :=
  List.decidableBAll _ bs

/-- Value of a little-endian byte list (head is the least significant byte). -/
def valLE : Bytes → Nat
  | [] => 0
  | b :: rest => b + 256 * valLE rest

/-- Value of a big-endian byte list (head is the most significant byte). -/
def beVal (bs : Bytes) : Nat := valLE bs.reverse

/-- The `n` little-endian bytes of the value `v`. -/
def leBytes : Nat → Nat → Bytes
  | 0, _ => []
  | n + 1, v => v % 256 :: leBytes n (v / 256)

/-- Carry loop of `Decrypter::increase_iv` (src/decrypter.rs:86-94), on the
bytes in the order the Rust iterator `iv.iter_mut().take(4).rev()` visits
them, i.e. least-significant first: the first byte below `255` is
incremented and the loop stops; each `255` before it wraps to `0`. -/
def incLoopLE : Bytes → Bytes
  | [] => []
  | b :: rest => if b < 255 then (b + 1) :: rest else 0 :: incLoopLE rest

/-- `Decrypter::increase_iv` (src/decrypter.rs:86-100): the carry loop runs
over `iv.iter_mut().take(4).rev()`, i.e. over the first four bytes of the
IV starting from `iv[3]`; the remaining bytes are untouched.  (The cipher
object is also recreated from the new IV; the byte buffer is what we
model.) -/
def increase_iv (iv : Bytes) : Bytes :=
  (incLoopLE (iv.take 4).reverse).reverse ++ iv.drop 4

/-- Loop of `increase_counter` (src/main.rs:83-94) at index `i`.
`none` models a Rust panic: either an out-of-bounds `counter[i]` access or
the `usize` underflow of `i -= 1` when `i == 0`. -/
def increase_counter_go : Nat → List Nat → Option (List Nat)
  | 0, counter =>
      if h0 : 0 < counter.length then
        if counter.get ⟨0, h0⟩ < 255 then
          some (counter.set 0 (counter.get ⟨0, h0⟩ + 1))
        else none
      else none
  | j + 1, counter =>
      if hi : j + 1 < counter.length then
        if counter.get ⟨j + 1, hi⟩ < 255 then
          some (counter.set (j + 1) (counter.get ⟨j + 1, hi⟩ + 1))
        else increase_counter_go j (counter.set (j + 1) 0)
      else none

/-- `increase_counter(counter, None)` (src/main.rs:83-94): the loop starts
at index `3` (`start.unwrap_or(3)`). -/
def increase_counter (counter : List Nat) : Option (List Nat) :=
  increase_counter_go 3 counter

/-- XOR a byte buffer with a keystream `f`, starting at keystream
position `p`.  This is the semantics of CTR-mode `apply_keystream` /
`Crypter::update`: ciphertext and plaintext are related by XOR with the
keystream determined by key and counter block. -/
def applyKS (f : Nat → Nat) : Nat → Bytes → Bytes
  | _, [] => []
  | p, b :: rest => (b ^^^ f p) :: applyKS f (p + 1) rest

/-- `decrypt` of src/main.rs:69-82: a fresh AES-256-CTR decrypter is
created from `key` and `counter` and applied to the whole buffer, so the
keystream starts at position `0` on every call.  `aesKS key counter` is
the abstract AES-256-CTR keystream for that key and initial counter
block, one byte per position. -/
def mainDecrypt (aesKS : Bytes → Bytes → Nat → Nat) (key counter ciphertext : Bytes) :
    Bytes :=
  applyKS (aesKS key counter) 0 ciphertext

/-- State of the `Decrypter` (src/decrypter.rs): the optional MAC
accumulator (`none` when MAC verification is disabled; otherwise the
byte sequence absorbed since the last reset) and the 16-byte IV.  The
cipher and MAC keys are fixed per file and live in the abstract
keystream/HMAC parameters of the operations. -/
structure DecState where
  macAcc : Option Bytes
  iv : Bytes
  deriving DecidableEq

/-- Modelled from the spec: the flagged `decrypt(buffer, update_mac)`
operation of the Decrypter called by src/input.rs (its implementation is
not under src/; src/decrypter.rs:52-61 carries the same body without the
flag).  Per §4.2 of the spec: if a MAC accumulator is present and
`update_mac` is true, the ciphertext is fed into the accumulator; the
buffer is then decrypted with AES-256-CTR using the current `iv` as the
initial counter block (the keystream restarts from the IV on each call).
`ks iv p` is the abstract keystream byte at position `p` for IV `iv`. -/
def decDecrypt (ks : Bytes → Nat → Nat) (st : DecState) (data : Bytes)
    (update_mac : Bool) : Bytes × DecState :=
  (applyKS (ks st.iv) 0 data,
   match update_mac with
   | true => { st with macAcc := st.macAcc.map (· ++ data) }
   | false => st)

/-- `Decrypter::mac_update_with_iv` (src/decrypter.rs:63-67): feed the
current IV into the MAC accumulator when one is present. -/
def mac_update_with_iv (st : DecState) : DecState :=
  { st with macAcc := st.macAcc.map (· ++ st.iv) }

/-- `Decrypter::verify_mac` (src/decrypter.rs:69-83).  `hmacFin acc` is
the abstract HMAC-SHA256 digest (32 bytes) of the absorbed sequence
`acc` under the MAC key.  The code takes the first 10 digest bytes,
compares them to the supplied control bytes with `subtle::ct_eq`
(functionally: equality), errors with the fixed message
`"HMAC verification failed"` on mismatch, and resets the accumulator
(`finalize_reset`); without an accumulator it is a no-op success. -/
def verify_mac (hmacFin : Bytes → Bytes) (st : DecState) (control : Bytes) :
    Except String DecState :=
  match st.macAcc with
  | none => .ok st
  | some acc =>
      if (hmacFin acc).take 10 = control then
        .ok { st with macAcc := some [] }
      else
        .error "HMAC verification failed"

/-- Error outcomes of the reading operations in src/input.rs:
propagated I/O errors, Rust panics (`unwrap` on a failed read, `usize`
underflow, out-of-range slice index), and MAC verification failure. -/
inductive RErr where
  | ioError
  | panic
  | macError
  deriving DecidableEq

/-- `InputFile::read_decrypt_frame` (src/input.rs:61-118), acting on the
unread part `input` of the byte source and returning the decrypted frame
bytes, the new decrypter state and the remaining input.
For `file_version == 0` the 4-byte big-endian length is read in clear
(`read_u32(..).unwrap()`: a short read panics), `length - 10` body bytes
are read and decrypted with MAC update, then the 10 MAC-tag bytes are
read and verified and the IV advanced.  Otherwise 4 encrypted length
bytes are read and decrypted without MAC update to learn `length`; a
buffer of `4 + length - 10` bytes is assembled from the original 4
ciphertext length bytes followed by the ciphertext body read from the
source, decrypted once with MAC update, and its first 4 decrypted bytes
are discarded; the 10 MAC-tag bytes are then read and verified and the
IV advanced.  `usize` underflow of `4 + length - 10` and the slice
`data[4..]` of a shorter buffer are panics. -/
def read_decrypt_frame (ks : Bytes → Nat → Nat) (hmacFin : Bytes → Bytes)
    (file_version : Nat) (st : DecState) (input : Bytes) :
    Except RErr (Bytes × DecState × Bytes) :=
  if file_version = 0 then
    if 4 ≤ input.length then
      let length := beVal (input.take 4)
      let rest1 := input.drop 4
      if 10 ≤ length then
        if length - 10 ≤ rest1.length then
          let body := rest1.take (length - 10)
          let rest2 := rest1.drop (length - 10)
          let (dec, st1) := decDecrypt ks st body true
          if 10 ≤ rest2.length then
            match verify_mac hmacFin st1 (rest2.take 10) with
            | .ok st2 => .ok (dec, { st2 with iv := increase_iv st2.iv }, rest2.drop 10)
            | .error _ => .error .macError
          else .error .ioError
        else .error .ioError
      else .error .panic
    else .error .panic
  else
    if 4 ≤ input.length then
      let encLen := input.take 4
      let rest1 := input.drop 4
      let (decLen, st1) := decDecrypt ks st encLen false
      let length := beVal decLen
      if 10 ≤ 4 + length then
        let dataLen := 4 + length - 10
        if 4 ≤ dataLen then
          if dataLen - 4 ≤ rest1.length then
            let body := rest1.take (dataLen - 4)
            let rest2 := rest1.drop (dataLen - 4)
            let (dec, st2) := decDecrypt ks st1 (encLen ++ body) true
            if 10 ≤ rest2.length then
              match verify_mac hmacFin st2 (rest2.take 10) with
              | .ok st3 =>
                  .ok (dec.drop 4, { st3 with iv := increase_iv st3.iv }, rest2.drop 10)
              | .error _ => .error .macError
            else .error .ioError
          else .error .ioError
        else .error .panic
      else .error .panic
    else .error .ioError

/-- `InputFile::read_decrypt_attachment` (src/input.rs:120-145): first
the current IV is fed into the MAC accumulator (`mac_update_with_iv`),
then `length` raw ciphertext bytes are read and decrypted with MAC
update, then the 10 MAC-tag bytes are read, the MAC is verified and the
IV advanced. -/
def read_decrypt_attachment (ks : Bytes → Nat → Nat) (hmacFin : Bytes → Bytes)
    (st : DecState) (length : Nat) (input : Bytes) :
    Except RErr (Bytes × DecState × Bytes) :=
  let st0 := mac_update_with_iv st
  if length ≤ input.length then
    let body := input.take length
    let rest1 := input.drop length
    let (dec, st1) := decDecrypt ks st0 body true
    if 10 ≤ rest1.length then
      match verify_mac hmacFin st1 (rest1.take 10) with
      | .ok st2 => .ok (dec, { st2 with iv := increase_iv st2.iv }, rest1.drop 10)
      | .error _ => .error .macError
    else .error .ioError
  else .error .ioError

/-- Abstract cryptographic hash primitives from the external crates:
`sha512` maps the full absorbed byte sequence of a digest context to its
64-byte digest; `hmacSha256 key msg` is the 32-byte HMAC-SHA256 tag. -/
structure CryptoPrims where
  sha512 : Bytes → Bytes
  hmacSha256 : Bytes → Bytes → Bytes

/-- The password-stretching loop shared by `Decrypter::new`
(src/decrypter.rs:20-28) and `generate_keys` (src/main.rs:96-103): `ctx`
is the byte sequence absorbed by the digest context so far (the salt
before the loop starts, empty after every `finalize_reset`/`finish`),
`h` the current hash; each round absorbs `h` and `key` and finalizes. -/
def hashLoop (P : CryptoPrims) (key : Bytes) : Nat → Bytes → Bytes → Bytes
  | 0, _, h => h
  | n + 1, ctx, h => hashLoop P key n [] (P.sha512 (ctx ++ h ++ key))

/-- The stretched hash: `hash` starts as the password, the salt is fed
into the digest context once before the loop, and the round
`hash := SHA-512(state ++ hash ++ key)` runs 250000 times. -/
def stretchHash (P : CryptoPrims) (key salt : Bytes) : Bytes :=
  hashLoop P key 250000 salt key

/-- HKDF-Extract as performed by `Hkdf::<Sha256>::new(None, ikm)`
(src/decrypter.rs:33) and `hkdf_extract(sha256, &[0u8; 32], key, ..)`
(src/main.rs:109): the PRK is the HMAC of the input keying material
under a 32-byte all-zero salt. -/
def hkdfExtract (P : CryptoPrims) (ikm : Bytes) : Bytes :=
  P.hmacSha256 (List.replicate 32 0) ikm

/-- HKDF-Expand (RFC 5869) with SHA-256 for a 64-byte output: two HMAC
blocks `T(1) = HMAC(prk, info ++ [1])` and
`T(2) = HMAC(prk, T(1) ++ info ++ [2])`. -/
def hkdfExpand64 (P : CryptoPrims) (prk info : Bytes) : Bytes :=
  let t1 := P.hmacSha256 prk (info ++ [1])
  let t2 := P.hmacSha256 prk (t1 ++ info ++ [2])
  (t1 ++ t2).take 64

/-- The ASCII bytes of `"Backup Export"`. -/
def infoBackupExport : Bytes :=
  [66, 97, 99, 107, 117, 112, 32, 69, 120, 112, 111, 114, 116]

/-- Key derivation as implemented by `Decrypter::new`
(src/decrypter.rs:18-50) and `generate_keys`/`derive_secrets`
(src/main.rs:95-117): stretch the password, use the first 32 bytes of
the final hash as HKDF input keying material (extract with an absent /
all-zero salt), expand with info `"Backup Export"` to 64 bytes, and
split into the cipher key (bytes 0..32) and the MAC key (bytes
32..64). -/
def generate_keys (P : CryptoPrims) (key salt : Bytes) : Bytes × Bytes :=
  let hash := stretchHash P key salt
  let okm := hkdfExpand64 P (hkdfExtract P (hash.take 32)) infoBackupExport
  (okm.take 32, (okm.drop 32).take 32)

/-- Modelled from the spec (§4.1 step 2, for comparison with the code):
key derivation as the spec words it, with the first 32 bytes of the
final hash used directly as the HKDF pseudorandom key, i.e. with the
extract step skipped. -/
def generate_keys_skip_extract (P : CryptoPrims) (key salt : Bytes) : Bytes × Bytes :=
  let hash := stretchHash P key salt
  let okm := hkdfExpand64 P (hash.take 32) infoBackupExport
  (okm.take 32, (okm.drop 32).take 32)

/-- One stretching round without the salt: `h ↦ SHA-512(h ++ key)`. -/
def sha512Step (P : CryptoPrims) (key h : Bytes) : Bytes :=
  P.sha512 (h ++ key)

/-- Key derivation as the amended claim describes it: the first round
absorbs `salt ++ password ++ password`, the remaining 249999 rounds
absorb `hash ++ password`; the PRK is the HMAC-SHA256 of `hash[..32]`
under a 32-byte zero salt (the extract step with an absent salt), then
HKDF-Expand with info `"Backup Export"` to 64 bytes, split 32/32. -/
def generate_keys_amended (P : CryptoPrims) (key salt : Bytes) : Bytes × Bytes :=
  let hash := (sha512Step P key)^[249999] (P.sha512 (salt ++ key ++ key))
  let okm := hkdfExpand64 P (P.hmacSha256 (List.replicate 32 0) (hash.take 32))
      infoBackupExport
  (okm.take 32, (okm.drop 32).take 32)

/-- `rusqlite::types::Value`, the sink-side SQL parameter representation.
Floating-point payloads are never computed with, only carried, so a
`Real` holds the opaque bit pattern of the `f64`. -/
inductive RValue where
  | Null
  | Integer (i : Int)
  | Real (bits : Nat)
  | Text (s : String)
  | Blob (b : Bytes)
  deriving DecidableEq

/-- Wire form of `SqlStatement.SqlParameter`: one presence-tested
accessor per possible field (field spelling follows the schema,
including the `stringParamter` typo).  The `u64` integer and the opaque
`f64` bit pattern are naturals, the null marker a unit-like flag. -/
structure SqlParameter where
  stringParamter : Option String
  integerParameter : Option Nat
  doubleParameter : Option Nat
  blobParameter : Option Bytes
  nullparameter : Option Bool
  deriving DecidableEq

/-- Wire form of `SharedPreference` (carried opaquely by the decoder). -/
structure SharedPreference where
  file : String
  key : String
  value : String
  deriving DecidableEq

/-- Wire form of the `KeyValue` record: a key plus one presence-tested
value field per wire-level type (the `f32` is an opaque bit pattern). -/
structure KeyValueW where
  key : String
  blobValue : Option Bytes
  booleanValue : Option Bool
  floatValue : Option Nat
  integerValue : Option Int
  longValue : Option Int
  stringValue : Option String
  deriving DecidableEq

/-- Wire form of the `Header` sub-message. -/
structure HeaderW where
  salt : Bytes
  iv : Bytes
  deriving DecidableEq

/-- Wire form of the `Attachment` sub-message. -/
structure AttachmentW where
  length : Nat
  attachmentId : Nat
  rowId : Nat
  deriving DecidableEq

/-- Wire form of the `Avatar` sub-message. -/
structure AvatarW where
  length : Nat
  name : String
  deriving DecidableEq

/-- Wire form of the `Sticker` sub-message. -/
structure StickerW where
  length : Nat
  rowId : Nat
  deriving DecidableEq

/-- Wire form of the `SqlStatement` sub-message. -/
structure StatementW where
  statement : String
  parameters : List SqlParameter
  deriving DecidableEq

/-- The deserialized `BackupFrame` wire structure: one optional
sub-message per possible field, `Option.isSome` modelling the `has_*`
presence tests. -/
structure BackupFrameW where
  header : Option HeaderW
  statement : Option StatementW
  preference : Option SharedPreference
  attachment : Option AttachmentW
  version : Option Nat
  endF : Option Bool
  avatar : Option AvatarW
  sticker : Option StickerW
  keyValue : Option KeyValueW
  deriving DecidableEq

/-- `KeyValueContent` (src/frame.rs:44-51); `Float` carries the opaque
`f32` bit pattern. -/
inductive KeyValueContent where
  | Blob (b : Bytes)
  | Bool (b : Bool)
  | Float (bits : Nat)
  | Int (i : Int)
  | String (s : String)
  deriving DecidableEq

/-- The `Frame` record type (src/frame.rs:5-42). -/
inductive Frame where
  | Header (salt : Bytes) (iv : Bytes)
  | Statement (statement : String) (parameter : List RValue)
  | Preference (preference : SharedPreference)
  | Attachment (data_length : Nat) (id : Nat) (row : Nat) (data : Option Bytes)
  | Version (version : Nat)
  | End
  | Avatar (data_length : Nat) (name : String) (data : Option Bytes)
  | Sticker (data_length : Nat) (row : Nat) (data : Option Bytes)
  | KeyValue (key : String) (value : KeyValueContent)
  deriving DecidableEq

/-- The `u64 as i64` cast used for `integerParameter`
(src/frame.rs:93). -/
def toI64 (n : Nat) : Int :=
  if n < 2 ^ 63 then (n : Int) else (n : Int) - 2 ^ 64

/-- The statement-parameter mapping (src/frame.rs:90-102): the first
present field in the order string, integer, double, blob, null wins;
a parameter with no known field set panics
(`panic!("Parameter type not known ..")`), modelled as `none`. -/
def mapParam (p : SqlParameter) : Option RValue :=
  match p.stringParamter with
  | some s => some (.Text s)
  | none =>
    match p.integerParameter with
    | some n => some (.Integer (toI64 n))
    | none =>
      match p.doubleParameter with
      | some d => some (.Real d)
      | none =>
        match p.blobParameter with
        | some b => some (.Blob b)
        | none =>
          match p.nullparameter with
          | some _ => some .Null
          | none => none

/-- Positional mapping of a statement's parameter list; the loop panics
at the first unknown parameter. -/
def mapParams : List SqlParameter → Option (List RValue)
  | [] => some []
  | p :: rest =>
    match mapParam p with
    | none => none
    | some v => (mapParams rest).map (v :: ·)

/-- The keyValue content mapping (src/frame.rs:188-202): first present
field in the order blob, boolean, float, integer (an `int32`, widened
with `.into()`), long, string; with none present the code hits
`unreachable!()`, modelled as `none`. -/
def mapKeyValue (kv : KeyValueW) : Option KeyValueContent :=
  match kv.blobValue with
  | some b => some (.Blob b)
  | none =>
    match kv.booleanValue with
    | some b => some (.Bool b)
    | none =>
      match kv.floatValue with
      | some bits => some (.Float bits)
      | none =>
        match kv.integerValue with
        | some i => some (.Int i)
        | none =>
          match kv.longValue with
          | some i => some (.Int i)
          | none =>
            match kv.stringValue with
            | some s => some (.String s)
            | none => none

/-- Number of set `has_*` discriminants, counted in the order
src/frame.rs tests them. -/
def countFields (f : BackupFrameW) : Nat :=
  (if f.header.isSome then 1 else 0) + (if f.statement.isSome then 1 else 0) +
  (if f.preference.isSome then 1 else 0) + (if f.attachment.isSome then 1 else 0) +
  (if f.version.isSome then 1 else 0) + (if f.endF.isSome then 1 else 0) +
  (if f.avatar.isSome then 1 else 0) + (if f.sticker.isSome then 1 else 0) +
  (if f.keyValue.isSome then 1 else 0)

/-- The fixed decode-error message of src/frame.rs:212-215 (the Rust
message also appends a debug dump of the raw frame). -/
def frameErrorMsg : String :=
  "Frame with an unsupported field found, please report to author"

/-- `Frame::new` (src/frame.rs:55-219): `ret` starts as `End` and each
present field overwrites it in source order while `field_count` is
incremented; a malformed statement parameter or an empty keyValue panics
(`none`) inside its branch, before the final count check; the final
check returns the error unless exactly one field was present. -/
def frameNew (f : BackupFrameW) : Option (Except String Frame) := do
  let r1 : Frame :=
    match f.header with
    | some h => .Header h.salt h.iv
    | none => .End
  let r2 : Frame ←
    match f.statement with
    | some s => (mapParams s.parameters).map (fun ps => Frame.Statement s.statement ps)
    | none => some r1
  let r3 : Frame :=
    match f.preference with
    | some p => .Preference p
    | none => r2
  let r4 : Frame :=
    match f.attachment with
    | some a => .Attachment a.length a.attachmentId a.rowId none
    | none => r3
  let r5 : Frame :=
    match f.version with
    | some v => .Version v
    | none => r4
  let r6 : Frame :=
    match f.endF with
    | some _ => .End
    | none => r5
  let r7 : Frame :=
    match f.avatar with
    | some a => .Avatar a.length a.name none
    | none => r6
  let r8 : Frame :=
    match f.sticker with
    | some s => .Sticker s.length s.rowId none
    | none => r7
  let r9 : Frame ←
    match f.keyValue with
    | some kv => (mapKeyValue kv).map (fun v => Frame.KeyValue kv.key v)
    | none => some r8
  if countFields f = 1 then
    some (.ok r9)
  else
    some (.error frameErrorMsg)

/-- Sub-field well-formedness: every statement parameter and the
keyValue content (when those discriminants are set) carry a recognized
wire-level type. -/
def wellFormedB (f : BackupFrameW) : Bool :=
  (match f.statement with
   | some s => s.parameters.all (fun p => (mapParam p).isSome)
   | none => true) &&
  (match f.keyValue with
   | some kv => (mapKeyValue kv).isSome
   | none => true)

/-- The record a wire frame should decode to according to the spec's
words: with exactly one discriminant set, the matching `Record` variant
with all sub-fields preserved (the chain below picks the unique present
field); `none` when the count is not one. -/
def recordOfSpec (f : BackupFrameW) : Option Frame :=
  if countFields f = 1 then
    match f.header with
    | some h => some (.Header h.salt h.iv)
    | none =>
      match f.statement with
      | some s => (mapParams s.parameters).map (fun ps => Frame.Statement s.statement ps)
      | none =>
        match f.preference with
        | some p => some (.Preference p)
        | none =>
          match f.attachment with
          | some a => some (.Attachment a.length a.attachmentId a.rowId none)
          | none =>
            match f.version with
            | some v => some (.Version v)
            | none =>
              match f.endF with
              | some _ => some .End
              | none =>
                match f.avatar with
                | some a => some (.Avatar a.length a.name none)
                | none =>
                  match f.sticker with
                  | some s => some (.Sticker s.length s.rowId none)
                  | none =>
                    match f.keyValue with
                    | some kv => (mapKeyValue kv).map
                        (fun v => Frame.KeyValue kv.key v)
                    | none => none
  else none

/-- The `SignalOutput` sink contract (src/output.rs:4-29): the write
operations the trait declares, each fallible with sink-side error type
`E`.  The trait declares no keyValue write operation. -/
structure Sink (E : Type) where
  write_statement : String → List RValue → Except E Unit
  write_attachment : Bytes → Nat → Nat → Except E Unit
  write_sticker : Bytes → Nat → Except E Unit
  write_avatar : Bytes → String → Except E Unit
  write_preference : SharedPreference → Except E Unit
  write_version : Nat → Except E Unit

/-- Result of forwarding a record: either the sink operation's own
error or the core-side `anyhow!` error of `write_frame`. -/
inductive WriteErr (E : Type) where
  | sink (e : E)
  | core (msg : String)
  deriving DecidableEq

/-- Embed a sink operation's result into the dispatch result type. -/
def liftSink {E : Type} : Except E Unit → Except (WriteErr E) Unit
  | .ok u => .ok u
  | .error e => .error (.sink e)

/-- `SignalOutput::write_frame` (src/output.rs:31-50): dispatch on the
record variant; `Attachment`/`Avatar`/`Sticker` unwrap their payload
(`data.as_ref().unwrap()`, a panic — `none` — when the payload is
absent); every variant outside the six handled ones falls into the
wildcard arm `Err(anyhow!("unexpected frame found"))`. -/
def write_frame {E : Type} (s : Sink E) (f : Frame) :
    Option (Except (WriteErr E) Unit) :=
  match f with
  | .Statement st ps => some (liftSink (s.write_statement st ps))
  | .Preference p => some (liftSink (s.write_preference p))
  | .Attachment _ id row d =>
      match d with
      | some bytes => some (liftSink (s.write_attachment bytes id row))
      | none => none
  | .Avatar _ name d =>
      match d with
      | some bytes => some (liftSink (s.write_avatar bytes name))
      | none => none
  | .Sticker _ row d =>
      match d with
      | some bytes => some (liftSink (s.write_sticker bytes row))
      | none => none
  | .Version v => some (liftSink (s.write_version v))
  | _ => some (.error (.core "unexpected frame found"))

/-- Concrete all-zero keystream (XOR with it is the identity), used to
evaluate the reading operations on concrete inputs. -/
def zeroKS : Bytes → Nat → Nat := fun _ _ => 0

/-- Concrete HMAC finalizer returning 32 zero bytes, used to evaluate
the reading operations on concrete inputs. -/
def zeroHmac : Bytes → Bytes := fun _ => List.replicate 32 0

/-- Concrete HMAC finalizer echoing the accumulator (padded), used to
distinguish digests of different accumulators on concrete inputs. -/
def echoHmac : Bytes → Bytes := fun acc => (acc ++ List.replicate 32 0).take 32

/-- Concrete crypto primitives with a constant SHA-512 and an HMAC that
echoes key and message, used to evaluate key derivation concretely. -/
def toyPrims : CryptoPrims where
  sha512 := fun _ => List.replicate 64 1
  hmacSha256 := fun k m => (k ++ m).take 32

/-- A sink whose operations all succeed, used to evaluate the dispatch
of `write_frame` on concrete records. -/
def okSink : Sink Unit where
  write_statement := fun _ _ => .ok ()
  write_attachment := fun _ _ _ => .ok ()
  write_sticker := fun _ _ => .ok ()
  write_avatar := fun _ _ => .ok ()
  write_preference := fun _ => .ok ()
  write_version := fun _ => .ok ()

/-! Helper lemmas about little-endian byte values and the carry loop. -/

theorem leBytes_length (n v : Nat) : (leBytes n v).length = n := by
  induction n generalizing v with
  | zero => rfl
  | succ n ih => simp [leBytes, ih]

theorem bytesBounded_leBytes (n v : Nat) : bytesBounded (leBytes n v) := by
  induction n generalizing v with
  | zero => intro b hb; simp [leBytes] at hb
  | succ n ih =>
      intro b hb
      simp only [leBytes, List.mem_cons] at hb
      rcases hb with h | h
      · omega
      · exact ih (v / 256) b h

theorem valLE_lt (bs : Bytes) (hb : bytesBounded bs) :
    valLE bs < 256 ^ bs.length := by
  induction bs with
  | nil => simp [valLE]
  | cons b rest ih =>
      have h1 : b < 256 := hb b (by simp)
      have h2 : valLE rest < 256 ^ rest.length :=
        ih (fun x hx => hb x (by simp [hx]))
      simp only [valLE, List.length_cons, Nat.pow_succ]
      omega

theorem leBytes_valLE (bs : Bytes) (hb : bytesBounded bs) :
    leBytes bs.length (valLE bs) = bs := by
  induction bs with
  | nil => rfl
  | cons b rest ih =>
      have h1 : b < 256 := hb b (by simp)
      have hmod : (b + 256 * valLE rest) % 256 = b := by omega
      have hdiv : (b + 256 * valLE rest) / 256 = valLE rest := by omega
      simp only [List.length_cons, leBytes, valLE, hmod, hdiv]
      rw [ih (fun x hx => hb x (by simp [hx]))]

theorem valLE_leBytes4 (v : Nat) : valLE (leBytes 4 v) = v % 2 ^ 32 := by
  have h32 : (2 : Nat) ^ 32 = 4294967296 := by norm_num
  have e : leBytes 4 v
      = [v % 256, v / 256 % 256, v / 256 / 256 % 256, v / 256 / 256 / 256 % 256] := rfl
  rw [h32, e]
  simp only [valLE]
  omega

theorem incLoopLE_eq (bs : Bytes) :
    bytesBounded bs →
      incLoopLE bs = leBytes bs.length ((valLE bs + 1) % 256 ^ bs.length) := by
  induction bs with
  | nil => intro _; rfl
  | cons b rest ih =>
      intro hb
      have h1 : b < 256 := hb b (by simp)
      have hrest : bytesBounded rest := fun x hx => hb x (by simp [hx])
      have h2 : valLE rest < 256 ^ rest.length := valLE_lt rest hrest
      by_cases hlt : b < 255
      · have hval : valLE (b :: rest) + 1 = (b + 1) + 256 * valLE rest := by
          simp only [valLE]; omega
        have hmodid : (valLE (b :: rest) + 1) % 256 ^ (rest.length + 1)
            = (b + 1) + 256 * valLE rest := by
          rw [hval]
          have hbound : (b + 1) + 256 * valLE rest < 256 ^ (rest.length + 1) := by
            rw [Nat.pow_succ]; omega
          exact Nat.mod_eq_of_lt hbound
        have e1 : ((b + 1) + 256 * valLE rest) % 256 = b + 1 := by omega
        have e2 : ((b + 1) + 256 * valLE rest) / 256 = valLE rest := by omega
        simp only [incLoopLE, if_pos hlt, List.length_cons, leBytes, hmodid, e1, e2]
        rw [leBytes_valLE rest hrest]
      · have hb255 : b = 255 := by omega
        subst hb255
        have h3 : valLE (255 :: rest) + 1 = 256 * (valLE rest + 1) := by
          simp only [valLE]; omega
        have hstep : (valLE (255 :: rest) + 1) % 256 ^ (rest.length + 1)
            = 256 * ((valLE rest + 1) % 256 ^ rest.length) := by
          rw [h3, Nat.pow_succ,
            Nat.mul_comm (256 ^ rest.length) 256, Nat.mul_mod_mul_left]
        have e1 : 256 * ((valLE rest + 1) % 256 ^ rest.length) % 256 = 0 := by omega
        have e2 : 256 * ((valLE rest + 1) % 256 ^ rest.length) / 256
            = (valLE rest + 1) % 256 ^ rest.length := by omega
        simp only [incLoopLE, if_neg hlt, List.length_cons, leBytes, hstep, e1, e2]
        rw [ih hrest]

theorem take4_reverse_bounded (iv : Bytes) (hb : bytesBounded iv) :
    bytesBounded (iv.take 4).reverse := by
  intro x hx
  exact hb x (List.take_subset 4 iv (List.mem_reverse.mp hx))

theorem increase_iv_char (iv : Bytes) (h16 : iv.length = 16) (hb : bytesBounded iv) :
    increase_iv iv
      = (leBytes 4 ((valLE (iv.take 4).reverse + 1) % 2 ^ 32)).reverse ++ iv.drop 4 := by
  have htl : (iv.take 4).length = 4 := by rw [List.length_take]; omega
  have hrl : (iv.take 4).reverse.length = 4 := by rw [List.length_reverse, htl]
  have h32 : (256 : Nat) ^ 4 = 2 ^ 32 := by norm_num
  unfold increase_iv
  rw [incLoopLE_eq _ (take4_reverse_bounded iv hb), hrl, h32]

theorem iterate_increase_iv (k : Nat) (iv : Bytes) (h16 : iv.length = 16)
    (hb : bytesBounded iv) (hk : 1 ≤ k) :
    increase_iv^[k] iv
      = (leBytes 4 ((valLE (iv.take 4).reverse + k) % 2 ^ 32)).reverse ++ iv.drop 4 := by
  induction k with
  | zero => omega
  | succ k ih =>
      rcases Nat.eq_zero_or_pos k with hk0 | hk1
      · subst hk0
        rw [Function.iterate_one]
        exact increase_iv_char iv h16 hb
      · rw [Function.iterate_succ_apply', ih hk1]
        have hlb : (leBytes 4 ((valLE (iv.take 4).reverse + k) % 2 ^ 32)).reverse.length
            = 4 := by
          rw [List.length_reverse, leBytes_length]
        have hlen : ((leBytes 4 ((valLE (iv.take 4).reverse + k) % 2 ^ 32)).reverse
            ++ iv.drop 4).length = 16 := by
          rw [List.length_append, hlb, List.length_drop, h16]
        have hbnd : bytesBounded
            ((leBytes 4 ((valLE (iv.take 4).reverse + k) % 2 ^ 32)).reverse
              ++ iv.drop 4) := by
          intro x hx
          rcases List.mem_append.mp hx with h | h
          · exact bytesBounded_leBytes 4 _ x (List.mem_reverse.mp h)
          · exact hb x (List.drop_subset 4 iv h)
        rw [increase_iv_char _ hlen hbnd, List.take_left' hlb, List.drop_left' hlb,
          List.reverse_reverse, valLE_leBytes4]
        have h32 : (2 : Nat) ^ 32 = 4294967296 := by norm_num
        have harith : ((valLE (iv.take 4).reverse + k) % 2 ^ 32 % 2 ^ 32 + 1) % 2 ^ 32
            = (valLE (iv.take 4).reverse + (k + 1)) % 2 ^ 32 := by
          rw [h32]; omega
        rw [harith]

/-- C1 (counterexample): at the all-zero 16-byte IV, `increase_iv`
increments byte 3 (the counter lives in `iv[0..4]`) and leaves
`iv[12..16]` untouched, contradicting the claim that the counter is
`iv[12..16]` and the first 12 bytes are unchanged. -/
theorem increase_iv_counter_position_cex :
    increase_iv (List.replicate 16 0) = [0, 0, 0, 1] ++ List.replicate 12 0
      ∧ increase_iv (List.replicate 16 0) ≠ List.replicate 12 0 ++ [0, 0, 0, 1] := by
  constructor
  · decide
  · decide

/-- C1 (amended): for every 16-byte IV, `increase_iv` treats `iv[0..4]`
as a big-endian unsigned 32-bit counter and increments it by one
(`iv[3]` increments first, carry propagating leftward within those 4
bytes only), and the last 12 bytes of the IV are left unchanged. -/
theorem increase_iv_first_four_counter (iv : Bytes) (h16 : iv.length = 16)
    (hb : bytesBounded iv) :
    beVal ((increase_iv iv).take 4) = (beVal (iv.take 4) + 1) % 2 ^ 32
      ∧ (increase_iv iv).drop 4 = iv.drop 4 := by
  have hchar := increase_iv_char iv h16 hb
  have hlb : (leBytes 4 ((valLE (iv.take 4).reverse + 1) % 2 ^ 32)).reverse.length
      = 4 := by
    rw [List.length_reverse, leBytes_length]
  constructor
  · rw [hchar, List.take_left' hlb]
    unfold beVal
    rw [List.reverse_reverse, valLE_leBytes4]
    have h32 : (2 : Nat) ^ 32 = 4294967296 := by norm_num
    rw [h32]
    omega
  · rw [hchar, List.drop_left' hlb]

/-- C1 (witness): the amended theorem applied at the IV `[0,..,15]`. -/
theorem increase_iv_first_four_counter_witness :
    beVal ((increase_iv (List.range 16)).take 4)
        = (beVal ((List.range 16).take 4) + 1) % 2 ^ 32
      ∧ (increase_iv (List.range 16)).drop 4 = (List.range 16).drop 4 :=
  increase_iv_first_four_counter (List.range 16) (by decide) (by decide)

/-- C8 (counterexample): with `iv[12..16] = [0,0,0,255]` (and zero bytes
elsewhere), 256 applications of `increase_iv` do not produce the claim's
predicted IV with `[0,0,1,0]` in bytes 12..16 and bytes 0..12 unchanged:
the counter that moves is in bytes 0..4. -/
theorem iterate_increase_iv_cex :
    increase_iv^[256] (List.replicate 12 0 ++ [0, 0, 0, 255])
        ≠ List.replicate 12 0 ++ [0, 0, 1, 0]
      ∧ increase_iv^[256] (List.replicate 12 0 ++ [0, 0, 0, 255])
        = [0, 0, 1, 0] ++ (List.replicate 8 0 ++ [0, 0, 0, 255]) := by
  have h := iterate_increase_iv 256 (List.replicate 12 0 ++ [0, 0, 0, 255])
    (by decide) (by decide) (by norm_num)
  have he : (leBytes 4 ((valLE ((List.replicate 12 0 ++ [0, 0, 0, 255]).take 4).reverse
        + 256) % 2 ^ 32)).reverse ++ (List.replicate 12 0 ++ [0, 0, 0, 255]).drop 4
      = [0, 0, 1, 0] ++ (List.replicate 8 0 ++ [0, 0, 0, 255]) := by decide
  rw [he] at h
  exact ⟨by rw [h]; decide, h⟩

/-- C8 (amended): applying `increase_iv` 256 times to a 16-byte IV whose
bytes 0..4 are `[0,0,0,255]` yields `[0,0,1,255]` in those four bytes
(255 + 256 = 511) while leaving bytes 4..16 unchanged, and applying it
`2^32` times returns the IV to its original value (the counter wraps). -/
theorem iterate_increase_iv_first_four (iv : Bytes) (h16 : iv.length = 16)
    (hb : bytesBounded iv) (h4 : iv.take 4 = [0, 0, 0, 255]) :
    (increase_iv^[256] iv).take 4 = [0, 0, 1, 255]
      ∧ (increase_iv^[256] iv).drop 4 = iv.drop 4
      ∧ increase_iv^[2 ^ 32] iv = iv := by
  have hval : valLE (iv.take 4).reverse = 255 := by rw [h4]; rfl
  have hiter := iterate_increase_iv 256 iv h16 hb (by norm_num)
  rw [hval] at hiter
  have hlb : (leBytes 4 ((255 + 256) % 2 ^ 32)).reverse.length = 4 := by
    rw [List.length_reverse, leBytes_length]
  refine ⟨?_, ?_, ?_⟩
  · rw [hiter, List.take_left' hlb]
    decide
  · rw [hiter, List.drop_left' hlb]
  · have hiter2 := iterate_increase_iv (2 ^ 32) iv h16 hb (by norm_num)
    rw [hval] at hiter2
    have hcv : (255 + 2 ^ 32) % 2 ^ 32 = 255 := by norm_num
    rw [hcv] at hiter2
    have hre : leBytes 4 255 = (iv.take 4).reverse := by rw [h4]; rfl
    rw [hiter2, hre, List.reverse_reverse, List.take_append_drop]

/-- C8 (witness): the amended theorem applied at the IV
`[0,0,0,255] ++ 12 zero bytes`. -/
theorem iterate_increase_iv_first_four_witness :
    (increase_iv^[256] ([0, 0, 0, 255] ++ List.replicate 12 0)).take 4 = [0, 0, 1, 255]
      ∧ (increase_iv^[256] ([0, 0, 0, 255] ++ List.replicate 12 0)).drop 4
          = ([0, 0, 0, 255] ++ List.replicate 12 0).drop 4
      ∧ increase_iv^[2 ^ 32] ([0, 0, 0, 255] ++ List.replicate 12 0)
          = [0, 0, 0, 255] ++ List.replicate 12 0 :=
  iterate_increase_iv_first_four ([0, 0, 0, 255] ++ List.replicate 12 0)
    (by decide) (by decide) (by decide)

/-- C10: on a 16-byte counter whose first four bytes are all `255`,
`increase_counter` of src/main.rs panics (the `i -= 1` at index 0
underflows the `usize`), modelled as `none`, instead of wrapping;
`increase_iv` of src/decrypter.rs wraps the four counter bytes to zero
as intended. -/
theorem increase_counter_panics_on_all_255 :
    increase_counter ([255, 255, 255, 255] ++ List.replicate 12 0) = none
      ∧ increase_iv ([255, 255, 255, 255] ++ List.replicate 12 0)
          = [0, 0, 0, 0] ++ List.replicate 12 0 := by
  constructor
  · decide
  · decide

/-! Keystream application and the CTR round trip. -/

theorem applyKS_length (f : Nat → Nat) (p : Nat) (bs : Bytes) :
    (applyKS f p bs).length = bs.length := by
  induction bs generalizing p with
  | nil => rfl
  | cons b rest ih => simp [applyKS, ih]

theorem applyKS_involutive (f : Nat → Nat) (p : Nat) (bs : Bytes) :
    applyKS f p (applyKS f p bs) = bs := by
  induction bs generalizing p with
  | nil => rfl
  | cons b rest ih =>
      simp only [applyKS, ih]
      rw [Nat.xor_assoc, Nat.xor_self, Nat.xor_zero]

/-- C9: for every byte buffer, key and IV, applying the core's
AES-256-CTR keystream usage (`decrypt` of src/main.rs:69-82, which
builds a fresh cipher from key and counter) twice returns the original
buffer: CTR encryption and decryption are the same XOR, so
encrypt-then-decrypt with the same key/iv is the identity, whatever the
AES keystream `aesKS` is. -/
theorem mainDecrypt_roundtrip (aesKS : Bytes → Bytes → Nat → Nat)
    (key counter buf : Bytes) :
    mainDecrypt aesKS key counter (mainDecrypt aesKS key counter buf) = buf := by
  unfold mainDecrypt
  exact applyKS_involutive (aesKS key counter) 0 buf

/-! Key derivation (C3). -/

theorem hashLoop_succ (P : CryptoPrims) (key : Bytes) (n : Nat) (ctx h : Bytes) :
    hashLoop P key (n + 1) ctx h = hashLoop P key n [] (P.sha512 (ctx ++ h ++ key)) :=
  rfl

theorem hashLoop_empty_ctx (P : CryptoPrims) (key : Bytes) (n : Nat) (h : Bytes) :
    hashLoop P key n [] h = (sha512Step P key)^[n] h := by
  induction n generalizing h with
  | zero => rfl
  | succ n ih =>
      rw [Function.iterate_succ_apply, hashLoop_succ, List.nil_append, ih]
      rfl

theorem stretchHash_iterate (P : CryptoPrims) (key salt : Bytes) :
    stretchHash P key salt
      = (sha512Step P key)^[249999] (P.sha512 (salt ++ key ++ key)) := by
  have h : (250000 : Nat) = 249999 + 1 := by norm_num
  unfold stretchHash
  rw [h, hashLoop_succ]
  exact hashLoop_empty_ctx P key 249999 (P.sha512 (salt ++ key ++ key))

/-- C3 (counterexample): with concrete primitives, the password `[5]`
and the salt `[6]`, the keys the code derives differ from the keys the
spec's words produce (PRK taken as `hash[..32]` directly): the code
performs the HKDF extract step with an all-zero salt instead of
skipping it. -/
theorem generate_keys_extract_cex :
    generate_keys toyPrims [5] [6] ≠ generate_keys_skip_extract toyPrims [5] [6] := by
  have hs : stretchHash toyPrims [5] [6] = List.replicate 64 1 := by
    rw [stretchHash_iterate]
    exact Function.iterate_fixed rfl 249999
  simp only [generate_keys, generate_keys_skip_extract, hs]
  decide

/-- C3 (amended): for every password and salt, key derivation computes
`hash := password` and performs 250000 iterations of
`hash := SHA-512(state ++ hash ++ password)` with the salt fed into the
digest context only once before the loop (so the first round hashes
`salt ++ password ++ password`, every later round `hash ++ password`);
it then performs the HKDF-SHA256 extract step with an absent (all-zero)
salt on the first 32 bytes of the final hash to obtain the PRK, expands
with info `"Backup Export"` to 64 bytes, and splits them into the
cipher key (bytes 0..32) and the MAC key (bytes 32..64). -/
theorem generate_keys_zero_salt_extract (P : CryptoPrims) (key salt : Bytes) :
    generate_keys P key salt = generate_keys_amended P key salt := by
  simp only [generate_keys, generate_keys_amended, hkdfExtract, stretchHash_iterate]

/-! Characterizations of the reading operations (C2, C4). -/

theorem read_decrypt_attachment_eq (ks : Bytes → Nat → Nat) (hmacFin : Bytes → Bytes)
    (acc iv body tag rest : Bytes) (L : Nat) (hL : body.length = L)
    (htag : tag.length = 10) :
    read_decrypt_attachment ks hmacFin ⟨some acc, iv⟩ L (body ++ (tag ++ rest))
      = if (hmacFin (acc ++ iv ++ body)).take 10 = tag
        then .ok (applyKS (ks iv) 0 body, ⟨some [], increase_iv iv⟩, rest)
        else .error .macError := by
  have hc1 : L ≤ (body ++ (tag ++ rest)).length := by
    rw [List.length_append, hL]; omega
  have e1 : (body ++ (tag ++ rest)).take L = body := List.take_left' hL
  have e2 : (body ++ (tag ++ rest)).drop L = tag ++ rest := List.drop_left' hL
  have hc2 : 10 ≤ (tag ++ rest).length := by
    rw [List.length_append, htag]; omega
  have e3 : (tag ++ rest).take 10 = tag := List.take_left' htag
  have e4 : (tag ++ rest).drop 10 = rest := List.drop_left' htag
  simp only [read_decrypt_attachment, mac_update_with_iv, decDecrypt, verify_mac,
    Option.map_some', if_pos hc1, e1, e2, if_pos hc2, e3, e4]
  by_cases hm : (hmacFin (acc ++ iv ++ body)).take 10 = tag
  · simp only [if_pos hm]
  · simp only [if_neg hm]

theorem read_decrypt_frame_v0_eq (ks : Bytes → Nat → Nat) (hmacFin : Bytes → Bytes)
    (acc iv lenB body tag rest : Bytes)
    (hlen : lenB.length = 4) (hL : 10 ≤ beVal lenB)
    (hbody : body.length = beVal lenB - 10) (htag : tag.length = 10) :
    read_decrypt_frame ks hmacFin 0 ⟨some acc, iv⟩ (lenB ++ (body ++ (tag ++ rest)))
      = if (hmacFin (acc ++ body)).take 10 = tag
        then .ok (applyKS (ks iv) 0 body, ⟨some [], increase_iv iv⟩, rest)
        else .error .macError := by
  have hc1 : 4 ≤ (lenB ++ (body ++ (tag ++ rest))).length := by
    rw [List.length_append, hlen]; omega
  have e1 : (lenB ++ (body ++ (tag ++ rest))).take 4 = lenB := List.take_left' hlen
  have e2 : (lenB ++ (body ++ (tag ++ rest))).drop 4 = body ++ (tag ++ rest) :=
    List.drop_left' hlen
  have hc3 : beVal lenB - 10 ≤ (body ++ (tag ++ rest)).length := by
    rw [List.length_append, hbody]; omega
  have e3 : (body ++ (tag ++ rest)).take (beVal lenB - 10) = body :=
    List.take_left' hbody
  have e4 : (body ++ (tag ++ rest)).drop (beVal lenB - 10) = tag ++ rest :=
    List.drop_left' hbody
  have hc4 : 10 ≤ (tag ++ rest).length := by
    rw [List.length_append, htag]; omega
  have e5 : (tag ++ rest).take 10 = tag := List.take_left' htag
  have e6 : (tag ++ rest).drop 10 = rest := List.drop_left' htag
  simp only [read_decrypt_frame, decDecrypt, verify_mac, Option.map_some',
    if_pos rfl, if_true, eq_self_iff_true, if_pos hc1, e1, e2, if_pos hL,
    if_pos hc3, e3, e4, if_pos hc4, e5, e6]
  by_cases hm : (hmacFin (acc ++ body)).take 10 = tag
  · simp only [if_pos hm]
  · simp only [if_neg hm]

theorem read_decrypt_frame_v1_eq (ks : Bytes → Nat → Nat) (hmacFin : Bytes → Bytes)
    (fv : Nat) (acc iv encLen body tag rest : Bytes)
    (hfv : fv ≠ 0) (henc : encLen.length = 4)
    (hL : 10 ≤ beVal (applyKS (ks iv) 0 encLen))
    (hbody : body.length = beVal (applyKS (ks iv) 0 encLen) - 10)
    (htag : tag.length = 10) :
    read_decrypt_frame ks hmacFin fv ⟨some acc, iv⟩ (encLen ++ (body ++ (tag ++ rest)))
      = if (hmacFin (acc ++ (encLen ++ body))).take 10 = tag
        then .ok ((applyKS (ks iv) 0 (encLen ++ body)).drop 4,
            ⟨some [], increase_iv iv⟩, rest)
        else .error .macError := by
  have hc1 : 4 ≤ (encLen ++ (body ++ (tag ++ rest))).length := by
    rw [List.length_append, henc]; omega
  have e1 : (encLen ++ (body ++ (tag ++ rest))).take 4 = encLen := List.take_left' henc
  have e2 : (encLen ++ (body ++ (tag ++ rest))).drop 4 = body ++ (tag ++ rest) :=
    List.drop_left' henc
  have hc2 : 10 ≤ 4 + beVal (applyKS (ks iv) 0 encLen) := by omega
  have hc3 : 4 ≤ 4 + beVal (applyKS (ks iv) 0 encLen) - 10 := by omega
  have harith : 4 + beVal (applyKS (ks iv) 0 encLen) - 10 - 4
      = beVal (applyKS (ks iv) 0 encLen) - 10 := by omega
  have hc4 : beVal (applyKS (ks iv) 0 encLen) - 10 ≤ (body ++ (tag ++ rest)).length := by
    rw [List.length_append, hbody]; omega
  have e3 : (body ++ (tag ++ rest)).take (beVal (applyKS (ks iv) 0 encLen) - 10)
      = body := List.take_left' hbody
  have e4 : (body ++ (tag ++ rest)).drop (beVal (applyKS (ks iv) 0 encLen) - 10)
      = tag ++ rest := List.drop_left' hbody
  have hc5 : 10 ≤ (tag ++ rest).length := by
    rw [List.length_append, htag]; omega
  have e5 : (tag ++ rest).take 10 = tag := List.take_left' htag
  have e6 : (tag ++ rest).drop 10 = rest := List.drop_left' htag
  simp only [read_decrypt_frame, decDecrypt, verify_mac, Option.map_some',
    if_neg hfv, if_pos hc1, e1, e2, if_pos hc2, if_pos hc3, harith,
    if_pos hc4, e3, e4, if_pos hc5, e5, e6]
  by_cases hm : (hmacFin (acc ++ (encLen ++ body))).take 10 = tag
  · simp only [if_pos hm]
  · simp only [if_neg hm]

/-- C2 (counterexample): a concrete version-1 frame whose 4-byte prefix
decrypts to the length 15 makes `read_decrypt_frame` return a 5-byte
payload, i.e. `decoded_length - 10` bytes, not the
`decoded_length - 10 - 4 = 1` bytes the claim states. -/
theorem read_decrypt_frame_payload_len_cex :
    read_decrypt_frame zeroKS zeroHmac 1 ⟨some [], List.replicate 16 0⟩
        ([0, 0, 0, 15] ++ ([1, 2, 3, 4, 5] ++ (List.replicate 10 0 ++ [])))
      = .ok ([1, 2, 3, 4, 5], ⟨some [], [0, 0, 0, 1] ++ List.replicate 12 0⟩, [])
    ∧ ([1, 2, 3, 4, 5] : Bytes).length ≠ 15 - 10 - 4 := by
  constructor
  · rfl
  · decide

/-- C2 (amended): for every frame read from a stream whose file version
is at least 1, `read_decrypt_frame` decrypts the 4-byte length prefix
without MAC update to learn `decoded_length`, then decrypts the single
assembled buffer of the original 4 ciphertext length bytes concatenated
with the ciphertext body with MAC update enabled (the verified digest
covers exactly `acc ++ (length bytes ++ body)`, once each, and never the
tag), discards the first 4 decrypted bytes, and returns exactly
`decoded_length - 10` bytes of true payload; the trailing 10-byte MAC
tag is read separately and is not part of the decrypted buffer. -/
theorem read_decrypt_frame_v1_payload (ks : Bytes → Nat → Nat)
    (hmacFin : Bytes → Bytes) (fv : Nat) (acc iv encLen body tag rest : Bytes)
    (hfv : fv ≠ 0) (henc : encLen.length = 4)
    (hL : 10 ≤ beVal (applyKS (ks iv) 0 encLen))
    (hbody : body.length = beVal (applyKS (ks iv) 0 encLen) - 10)
    (htag : tag.length = 10)
    (hm : (hmacFin (acc ++ (encLen ++ body))).take 10 = tag) :
    read_decrypt_frame ks hmacFin fv ⟨some acc, iv⟩ (encLen ++ (body ++ (tag ++ rest)))
        = .ok ((applyKS (ks iv) 0 (encLen ++ body)).drop 4,
            ⟨some [], increase_iv iv⟩, rest)
      ∧ ((applyKS (ks iv) 0 (encLen ++ body)).drop 4).length
          = beVal (applyKS (ks iv) 0 encLen) - 10 := by
  constructor
  · rw [read_decrypt_frame_v1_eq ks hmacFin fv acc iv encLen body tag rest
      hfv henc hL hbody htag, if_pos hm]
  · rw [List.length_drop, applyKS_length, List.length_append, henc, hbody]
    omega

/-- C2 (witness): the amended theorem applied to a concrete version-1
frame with decoded length 15. -/
theorem read_decrypt_frame_v1_payload_witness :
    read_decrypt_frame zeroKS zeroHmac 1 ⟨some [], List.replicate 16 0⟩
        ([0, 0, 0, 15] ++ ([1, 2, 3, 4, 5] ++ (List.replicate 10 0 ++ [])))
        = .ok ((applyKS (zeroKS (List.replicate 16 0)) 0
              ([0, 0, 0, 15] ++ [1, 2, 3, 4, 5])).drop 4,
            ⟨some [], increase_iv (List.replicate 16 0)⟩, [])
      ∧ ((applyKS (zeroKS (List.replicate 16 0)) 0
            ([0, 0, 0, 15] ++ [1, 2, 3, 4, 5])).drop 4).length
          = beVal (applyKS (zeroKS (List.replicate 16 0)) 0 [0, 0, 0, 15]) - 10 :=
  read_decrypt_frame_v1_payload zeroKS zeroHmac 1 [] (List.replicate 16 0)
    [0, 0, 0, 15] [1, 2, 3, 4, 5] (List.replicate 10 0) []
    (by decide) (by decide) (by decide) (by decide) (by decide) (by decide)

/-- C4: before decrypting a payload block (`read_decrypt_attachment`,
used for attachment, avatar and sticker data), the current IV bytes are
fed into the MAC accumulator, so the verified tag covers the IV followed
by the payload ciphertext (`acc ++ iv ++ body`); and this IV priming is
never performed before decrypting an ordinary record frame
(`read_decrypt_frame`): in era 0 the verified digest covers only
`acc ++ body`, in era ≥ 1 only `acc ++ (length bytes ++ body)` — in
neither case the IV. -/
theorem mac_iv_priming_payload_only (ks : Bytes → Nat → Nat)
    (hmacFin : Bytes → Bytes)
    (acc iv body tag rest : Bytes) (L : Nat)
    (accB ivB lenB bodyB tagB restB : Bytes)
    (accC ivC encC bodyC tagC restC : Bytes) (fv : Nat)
    (hL : body.length = L) (htag : tag.length = 10)
    (hlenB : lenB.length = 4) (hLB : 10 ≤ beVal lenB)
    (hbodyB : bodyB.length = beVal lenB - 10) (htagB : tagB.length = 10)
    (hfv : fv ≠ 0) (hencC : encC.length = 4)
    (hLC : 10 ≤ beVal (applyKS (ks ivC) 0 encC))
    (hbodyC : bodyC.length = beVal (applyKS (ks ivC) 0 encC) - 10)
    (htagC : tagC.length = 10) :
    read_decrypt_attachment ks hmacFin ⟨some acc, iv⟩ L (body ++ (tag ++ rest))
        = (if (hmacFin (acc ++ iv ++ body)).take 10 = tag
           then .ok (applyKS (ks iv) 0 body, ⟨some [], increase_iv iv⟩, rest)
           else .error .macError)
      ∧ read_decrypt_frame ks hmacFin 0 ⟨some accB, ivB⟩
            (lenB ++ (bodyB ++ (tagB ++ restB)))
        = (if (hmacFin (accB ++ bodyB)).take 10 = tagB
           then .ok (applyKS (ks ivB) 0 bodyB, ⟨some [], increase_iv ivB⟩, restB)
           else .error .macError)
      ∧ read_decrypt_frame ks hmacFin fv ⟨some accC, ivC⟩
            (encC ++ (bodyC ++ (tagC ++ restC)))
        = (if (hmacFin (accC ++ (encC ++ bodyC))).take 10 = tagC
           then .ok ((applyKS (ks ivC) 0 (encC ++ bodyC)).drop 4,
               ⟨some [], increase_iv ivC⟩, restC)
           else .error .macError) :=
  ⟨read_decrypt_attachment_eq ks hmacFin acc iv body tag rest L hL htag,
   read_decrypt_frame_v0_eq ks hmacFin accB ivB lenB bodyB tagB restB
     hlenB hLB hbodyB htagB,
   read_decrypt_frame_v1_eq ks hmacFin fv accC ivC encC bodyC tagC restC
     hfv hencC hLC hbodyC htagC⟩

/-- C4 (witness): the theorem applied to a concrete payload block, a
concrete era-0 frame and a concrete era-1 frame. -/
theorem mac_iv_priming_payload_only_witness :
    read_decrypt_attachment zeroKS zeroHmac ⟨some [], List.replicate 16 0⟩ 1
        ([7] ++ (List.replicate 10 0 ++ []))
        = (if (zeroHmac ([] ++ List.replicate 16 0 ++ [7])).take 10
              = List.replicate 10 0
           then .ok (applyKS (zeroKS (List.replicate 16 0)) 0 [7],
               ⟨some [], increase_iv (List.replicate 16 0)⟩, [])
           else .error .macError)
      ∧ read_decrypt_frame zeroKS zeroHmac 0 ⟨some [], List.replicate 16 0⟩
            ([0, 0, 0, 11] ++ ([9] ++ (List.replicate 10 0 ++ [])))
        = (if (zeroHmac ([] ++ [9])).take 10 = List.replicate 10 0
           then .ok (applyKS (zeroKS (List.replicate 16 0)) 0 [9],
               ⟨some [], increase_iv (List.replicate 16 0)⟩, [])
           else .error .macError)
      ∧ read_decrypt_frame zeroKS zeroHmac 1 ⟨some [], List.replicate 16 0⟩
            ([0, 0, 0, 15] ++ ([1, 2, 3, 4, 5] ++ (List.replicate 10 0 ++ [])))
        = (if (zeroHmac ([] ++ ([0, 0, 0, 15] ++ [1, 2, 3, 4, 5]))).take 10
              = List.replicate 10 0
           then .ok ((applyKS (zeroKS (List.replicate 16 0)) 0
                 ([0, 0, 0, 15] ++ [1, 2, 3, 4, 5])).drop 4,
               ⟨some [], increase_iv (List.replicate 16 0)⟩, [])
           else .error .macError) :=
  mac_iv_priming_payload_only zeroKS zeroHmac
    [] (List.replicate 16 0) [7] (List.replicate 10 0) [] 1
    [] (List.replicate 16 0) [0, 0, 0, 11] [9] (List.replicate 10 0) []
    [] (List.replicate 16 0) [0, 0, 0, 15] [1, 2, 3, 4, 5] (List.replicate 10 0) [] 1
    (by decide) (by decide) (by decide) (by decide) (by decide) (by decide)
    (by decide) (by decide) (by decide) (by decide) (by decide)

/-- C5 (counterexample): two MAC mismatches with different computed
digests and different supplied tags produce the identical error value —
the fixed `anyhow!` message — so the error of `verify_mac`
(src/decrypter.rs:78) carries neither the expected nor the computed
tag.  (The tag-carrying `MacVerificationError` lives in the legacy
src/errors.rs path, not in `Decrypter::verify_mac`.) -/
theorem verify_mac_error_no_tags_cex :
    verify_mac echoHmac ⟨some [1], []⟩ (List.replicate 10 9)
        = .error "HMAC verification failed"
      ∧ verify_mac echoHmac ⟨some [2], []⟩ (List.replicate 10 8)
        = .error "HMAC verification failed"
      ∧ (echoHmac [1]).take 10 ≠ (echoHmac [2]).take 10
      ∧ (List.replicate 10 9 : Bytes) ≠ List.replicate 10 8 :=
  ⟨rfl, rfl, by decide, by decide⟩

/-- C5 (amended): `verify_mac` finalizes the MAC accumulator, truncates
the 32-byte HMAC-SHA256 digest to its first 10 bytes, and compares them
to the supplied tag (via `subtle::ct_eq`, functionally equality); on
mismatch it returns a MAC-mismatch error carrying only the fixed
message "HMAC verification failed" and neither tag; on success the
accumulator is reset (to the empty absorbed sequence) for reuse; and
when MAC verification is disabled by configuration (no accumulator) it
returns success without doing anything. -/
theorem verify_mac_spec (hmacFin : Bytes → Bytes) (iv control acc : Bytes) :
    verify_mac hmacFin ⟨none, iv⟩ control = .ok ⟨none, iv⟩
      ∧ verify_mac hmacFin ⟨some acc, iv⟩ control
        = (if (hmacFin acc).take 10 = control
           then .ok ⟨some [], iv⟩
           else .error "HMAC verification failed") :=
  ⟨rfl, rfl⟩

/-- C7 (counterexample): the sink trait has no keyValue write operation;
forwarding a `KeyValue` record to a sink whose every operation succeeds
yields the core-side "unexpected frame found" error rather than any
sink operation's result. -/
theorem write_frame_keyvalue_cex :
    write_frame okSink (Frame.KeyValue "k" (KeyValueContent.Bool true))
      = some (Except.error (WriteErr.core "unexpected frame found")) := rfl

/-- C7 (amended): `write_frame` calls exactly one sink operation
selected by the record's variant — `write_statement` for Statement,
`write_preference` for Preference, `write_attachment` for Attachment,
`write_avatar` for Avatar, `write_sticker` for Sticker (each of the
latter three requiring a present payload: an absent payload is an
`unwrap` panic), and `write_version` for Version — and returns its
result; the trait declares no keyValue operation, and Header, End and
KeyValue all yield the core-side "unexpected frame found" error. -/
theorem write_frame_dispatch {E : Type} (s : Sink E) :
    (∀ txt ps, write_frame s (.Statement txt ps)
        = some (liftSink (s.write_statement txt ps)))
      ∧ (∀ p, write_frame s (.Preference p)
          = some (liftSink (s.write_preference p)))
      ∧ (∀ L id row b, write_frame s (.Attachment L id row (some b))
          = some (liftSink (s.write_attachment b id row)))
      ∧ (∀ L nm b, write_frame s (.Avatar L nm (some b))
          = some (liftSink (s.write_avatar b nm)))
      ∧ (∀ L row b, write_frame s (.Sticker L row (some b))
          = some (liftSink (s.write_sticker b row)))
      ∧ (∀ v, write_frame s (.Version v) = some (liftSink (s.write_version v)))
      ∧ (∀ salt iv, write_frame s (.Header salt iv)
          = some (.error (.core "unexpected frame found")))
      ∧ write_frame s .End = some (.error (.core "unexpected frame found"))
      ∧ (∀ k val, write_frame s (.KeyValue k val)
          = some (.error (.core "unexpected frame found")))
      ∧ (∀ L id row, write_frame s (.Attachment L id row none) = none)
      ∧ (∀ L nm, write_frame s (.Avatar L nm none) = none)
      ∧ (∀ L row, write_frame s (.Sticker L row none) = none) :=
  ⟨fun _ _ => rfl, fun _ => rfl, fun _ _ _ _ => rfl, fun _ _ _ => rfl,
   fun _ _ _ => rfl, fun _ => rfl, fun _ _ => rfl, rfl, fun _ _ => rfl,
   fun _ _ _ => rfl, fun _ _ => rfl, fun _ _ => rfl⟩

/-! Record decoding (C6). -/

theorem mapParams_isSome_of_all (l : List SqlParameter)
    (h : l.all (fun p => (mapParam p).isSome) = true) :
    ∃ ps, mapParams l = some ps := by
  induction l with
  | nil => exact ⟨[], rfl⟩
  | cons p rest ih =>
      simp only [List.all_cons, Bool.and_eq_true] at h
      obtain ⟨ps, hps⟩ := ih h.2
      obtain ⟨v, hv⟩ := Option.isSome_iff_exists.mp h.1
      exact ⟨v :: ps, by simp [mapParams, hv, hps]⟩

/-- C6 (counterexample): a wire frame with exactly one set discriminant
— a statement whose single parameter has no recognized type — makes
`Frame::new` panic (`none` in the model, the
`panic!("Parameter type not known ..")` of src/frame.rs:101) instead of
decoding, refuting that decoding succeeds exactly when precisely one
known discriminant is set and that failures are always errors, never
panics. -/
theorem frame_new_single_field_panic_cex :
    countFields ⟨none, some ⟨"S", [⟨none, none, none, none, none⟩]⟩, none, none,
        none, none, none, none, none⟩ = 1
      ∧ frameNew ⟨none, some ⟨"S", [⟨none, none, none, none, none⟩]⟩, none, none,
          none, none, none, none, none⟩ = none :=
  ⟨rfl, rfl⟩

set_option maxHeartbeats 3200000 in
/-- C6 (amended): for every deserialized wire frame whose sub-content is
well-formed (every statement parameter and the keyValue content carry a
recognized wire-level type), decoding never panics; it returns the
matching Record variant with all sub-fields preserved exactly when
precisely one known field discriminant is set, and the fixed
corrupt-input error when zero or two or more are set.  (Without the
well-formedness condition a frame can panic even with exactly one
discriminant set, as the counterexample shows.) -/
theorem frame_new_wellformed_spec (f : BackupFrameW) (hwf : wellFormedB f = true) :
    frameNew f ≠ none
      ∧ (∀ r, frameNew f = some (.ok r)
          ↔ (countFields f = 1 ∧ recordOfSpec f = some r))
      ∧ (countFields f ≠ 1 → frameNew f = some (.error frameErrorMsg)) := by
  obtain ⟨oh, os, op, oa, ov, oe, oav, ost, okv⟩ := f
  simp only [wellFormedB, Bool.and_eq_true] at hwf
  obtain ⟨hwf1, hwf2⟩ := hwf
  rcases os with _ | s <;> rcases okv with _ | kv
  · rcases oh with _ | h <;> rcases op with _ | p <;> rcases oa with _ | a <;>
      rcases ov with _ | v <;> rcases oe with _ | e <;> rcases oav with _ | av <;>
      rcases ost with _ | st <;>
      simp_all [frameNew, countFields, recordOfSpec, frameErrorMsg, Option.bind]
  · obtain ⟨w, hw⟩ := Option.isSome_iff_exists.mp hwf2
    rcases oh with _ | h <;> rcases op with _ | p <;> rcases oa with _ | a <;>
      rcases ov with _ | v <;> rcases oe with _ | e <;> rcases oav with _ | av <;>
      rcases ost with _ | st <;>
      simp_all [frameNew, countFields, recordOfSpec, frameErrorMsg, Option.bind]
  · obtain ⟨ps, hps⟩ := mapParams_isSome_of_all s.parameters hwf1
    rcases oh with _ | h <;> rcases op with _ | p <;> rcases oa with _ | a <;>
      rcases ov with _ | v <;> rcases oe with _ | e <;> rcases oav with _ | av <;>
      rcases ost with _ | st <;>
      simp_all [frameNew, countFields, recordOfSpec, frameErrorMsg, Option.bind]
  · obtain ⟨ps, hps⟩ := mapParams_isSome_of_all s.parameters hwf1
    obtain ⟨w, hw⟩ := Option.isSome_iff_exists.mp hwf2
    rcases oh with _ | h <;> rcases op with _ | p <;> rcases oa with _ | a <;>
      rcases ov with _ | v <;> rcases oe with _ | e <;> rcases oav with _ | av <;>
      rcases ost with _ | st <;>
      simp_all [frameNew, countFields, recordOfSpec, frameErrorMsg, Option.bind]

/-- C6 (witness): the amended theorem applied to a well-formed wire
frame with a single set discriminant (an attachment with length 5,
attachment id 7, row id 9). -/
theorem frame_new_wellformed_spec_witness :
    frameNew ⟨none, none, none, some ⟨5, 7, 9⟩, none, none, none, none, none⟩ ≠ none
      ∧ (∀ r, frameNew ⟨none, none, none, some ⟨5, 7, 9⟩, none, none, none, none, none⟩
            = some (.ok r)
          ↔ (countFields ⟨none, none, none, some ⟨5, 7, 9⟩, none, none, none,
                none, none⟩ = 1
              ∧ recordOfSpec ⟨none, none, none, some ⟨5, 7, 9⟩, none, none, none,
                  none, none⟩ = some r))
      ∧ (countFields ⟨none, none, none, some ⟨5, 7, 9⟩, none, none, none,
            none, none⟩ ≠ 1
          → frameNew ⟨none, none, none, some ⟨5, 7, 9⟩, none, none, none,
              none, none⟩ = some (.error frameErrorMsg)) :=
  frame_new_wellformed_spec
    ⟨none, none, none, some ⟨5, 7, 9⟩, none, none, none, none, none⟩ (by decide)
